import Mathlib

/-!
Verification of the array indexing semantics (view vs. copy) taught by the
repository's notebooks, together with the grid-search enumeration scenario.

The repository's notebooks exercise an array library's indexing contract
`index(array, expr)`.  The library itself is not part of the repository's
sources, so the contract is modelled from the specification: arrays are
headers (store id, offset, stride, length) over a heap of backing stores;
slices return a header on the same store (a view), boolean masks and
integer-index sequences allocate a fresh store (a copy).
-/

/-- Modelled from the spec: a contiguous backing store of numeric elements. -/
abbrev Store := List Int

/-- Modelled from the spec: the collection of allocated backing stores; a
store id is a position in this list. -/
abbrev Heap := List Store

/-- Modelled from the spec: an Array header — a reference to a backing store
together with the stride/offset describing how the store maps to logical
indices, and the logical length. -/
structure ArrHeader where
  sid : Nat
  offset : Nat
  stride : Nat
  len : Nat
deriving DecidableEq, Repr

/-- Modelled from the spec: an index expression is either a slice
(start:stop:step), a boolean mask, or an integer-index sequence. -/
inductive IndexExpr where
  | slice (start stop step : Nat)
  | mask (m : List Bool)
  | ints (js : List Int)
deriving DecidableEq, Repr

/-- Modelled from the spec: the faults `index` can signal. -/
inductive Fault where
  | shapeMismatch
  | indexOutOfBounds
deriving DecidableEq, Repr

/-- Read the backing store with the given id (empty store if the id is not
allocated). -/
def readStore (H : Heap) (sid : Nat) : Store :=
  H.getD sid []

/-- Read the element at logical index `i` of the array described by header
`h` (0 if the position is outside the backing store). -/
def readElem (H : Heap) (h : ArrHeader) (i : Nat) : Int :=
  (readStore H h.sid).getD (h.offset + i * h.stride) 0

/-- The logical contents of the array described by header `h`. -/
def arrVals (H : Heap) (h : ArrHeader) : List Int :=
  (List.range h.len).map (readElem H h)

/-- Write value `v` at logical index `i` of the array described by header
`h`, mutating the backing store in place. -/
def writeElem (H : Heap) (h : ArrHeader) (i : Nat) (v : Int) : Heap :=
  H.set h.sid ((readStore H h.sid).set (h.offset + i * h.stride) v)

/-- Number of logical indices selected by a slice start:stop:step over an
array of length `n`. -/
def sliceLen (start stop step n : Nat) : Nat :=
  if start < min stop n then (min stop n - start - 1) / step + 1 else 0

/-- Modelled from the spec: boolean-mask selection — keep the elements at
the True positions of the mask, in index order. -/
def maskSelect : List Int → List Bool → List Int
  | _, [] => []
  | [], _ :: _ => []
  | v :: vs, b :: bs => if b then v :: maskSelect vs bs else maskSelect vs bs

/-- Resolve one integer index against length `n`: nonnegative indices must
be below `n`, negative indices count from the end; anything else is an
index-out-of-bounds fault. -/
def resolveIdx (n : Nat) (j : Int) : Except Fault Nat :=
  if 0 ≤ j ∧ j < (n : Int) then .ok j.toNat
  else if -(n : Int) ≤ j ∧ j < 0 then .ok (j + n).toNat
  else .error .indexOutOfBounds

/-- Resolve a whole integer-index sequence, surfacing the first fault. -/
def resolveAll (n : Nat) : List Int → Except Fault (List Nat)
  | [] => .ok []
  | j :: js =>
    match resolveIdx n j with
    | .ok p =>
      match resolveAll n js with
      | .ok ps => .ok (p :: ps)
      | .error f => .error f
    | .error f => .error f

/-- Modelled from the spec: the Array Indexing Semantics Checker's contract
`index(array, expr) -> Array`.  A slice produces a view: a header on the
same backing store with composed offset/stride.  A boolean mask (whose
length must equal the array's length) or an integer-index sequence produces
a copy: the selected values are placed in a freshly allocated backing store.
A mask of the wrong length signals a shape-mismatch fault; an out-of-range
integer index signals an index-out-of-bounds fault. -/
def index (H : Heap) (a : ArrHeader) : IndexExpr → Except Fault (Heap × ArrHeader)
  | .slice start stop step =>
    .ok (H, ⟨a.sid, a.offset + start * a.stride, a.stride * step,
             sliceLen start stop step a.len⟩)
  | .mask m =>
    if m.length = a.len then
      let s := maskSelect (arrVals H a) m
      .ok (H ++ [s], ⟨H.length, 0, 1, s.length⟩)
    else .error .shapeMismatch
  | .ints js =>
    match resolveAll a.len js with
    | .ok ps =>
      let s := ps.map (fun p => readElem H a p)
      .ok (H ++ [s], ⟨H.length, 0, 1, s.length⟩)
    | .error f => .error f

/-- Fill every logical position of the array described by `h` with `v`
(used to model slice assignment `b[s] = v`: fill the view `index b s`). -/
def fillArr (H : Heap) (h : ArrHeader) (v : Int) : Heap :=
  (List.range h.len).foldl (fun H2 i => writeElem H2 h i v) H

/-- Slice assignment `a[start:stop:step] = v`: take the slice view and fill
it in place; slicing never faults, so this is total. -/
def sliceAssign (H : Heap) (a : ArrHeader) (start stop step : Nat) (v : Int) : Heap :=
  match index H a (.slice start stop step) with
  | .ok (H2, s) => fillArr H2 s v
  | .error _ => H

/-- Elementwise remainder `a % k` on the logical contents of an array. -/
def scalarMod (vs : List Int) (k : Int) : List Int :=
  vs.map (fun v => v % k)

/-- Elementwise comparison `a == c`, producing a boolean mask. -/
def scalarEq (vs : List Int) (c : Int) : List Bool :=
  vs.map (fun v => v == c)

/-- Elementwise comparison `a < c`, producing a boolean mask. -/
def scalarLt (vs : List Int) (c : Int) : List Bool :=
  vs.map (fun v => decide (v < c))

/-- Run `index` and return the resulting heap and header (identity on
fault, for stating concrete scenarios whose indexing succeeds). -/
def runIndex (H : Heap) (a : ArrHeader) (e : IndexExpr) : Heap × ArrHeader :=
  match index H a e with
  | .ok r => r
  | .error _ => (H, a)

/-! ## Concrete scenarios from the notebooks -/

/-- The quiz program's initial heap: `a = np.arange(5)`. -/
def quizHeap : Heap := [[0, 1, 2, 3, 4]]

/-- The header of `a` in the quiz program. -/
def quizA : ArrHeader := ⟨0, 0, 1, 5⟩

/-- The state after `b = a[a < 3]`. -/
def quizB : Heap × ArrHeader :=
  runIndex quizHeap quizA (.mask (scalarLt (arrVals quizHeap quizA) 3))

/-- The heap after `b[::2] = 0`. -/
def quizFinal : Heap := sliceAssign quizB.1 quizB.2 0 quizB.2.len 2 0

/-- The heap for the odd-selection example: `a = np.arange(4)`. -/
def oddHeap : Heap := [[0, 1, 2, 3]]

/-- The header of `a` in the odd-selection example. -/
def oddA : ArrHeader := ⟨0, 0, 1, 4⟩

/-- The mask `(a % 2) == 1` built from `a`'s own values. -/
def oddMask : List Bool := scalarEq (scalarMod (arrVals oddHeap oddA) 2) 1

/-! ## Helper lemmas -/

theorem maskSelect_eq_filterMap (vs : List Int) (m : List Bool) :
    maskSelect vs m = (vs.zip m).filterMap (fun p => if p.2 then some p.1 else none) := by
  induction vs generalizing m with
  | nil => cases m <;> simp [maskSelect]
  | cons v vs ih =>
    cases m with
    | nil => simp [maskSelect]
    | cons b bs => cases b <;> simp [maskSelect, ih]

/-! ## Claims -/

/-- C1: in the quiz program, starting from `a = [0,1,2,3,4]`, the mask
indexing `b = a[a < 3]` succeeds, and after `b[::2] = 0` the array `a` is
unchanged `[0,1,2,3,4]` while `b` is `[0,1,0]` (answer (d)): the mask
produced a copy whose mutation is invisible through `a`. -/
theorem quiz_answer_d :
    index quizHeap quizA (.mask (scalarLt (arrVals quizHeap quizA) 3)) = .ok quizB ∧
    arrVals quizB.1 quizB.2 = [0, 1, 2] ∧
    arrVals quizFinal quizA = [0, 1, 2, 3, 4] ∧
    arrVals quizFinal quizB.2 = [0, 1, 0] :=
  ⟨rfl, rfl, rfl, rfl⟩

/-- C4: applying a boolean mask whose length differs from the array's
length signals a shape-mismatch fault; the mask is never truncated or
broadcast to a result. -/
theorem mask_shape_mismatch (H : Heap) (a : ArrHeader) (m : List Bool)
    (h : m.length ≠ a.len) :
    index H a (.mask m) = .error .shapeMismatch := by
  simp [index, h]

/-- Witness for C4: a mask of length 3 on an array of length 4 faults. -/
theorem mask_shape_mismatch_witness :
    index [[0, 1, 2, 3]] ⟨0, 0, 1, 4⟩ (.mask [false, true, true]) =
      .error .shapeMismatch :=
  mask_shape_mismatch _ _ _ (by decide)

/-- C5: boolean-mask indexing selects exactly the elements at the True
positions of the mask, in index order (general characterization as a
zip-filter), and in particular `[0,1,2,3][false,true,true,false] = [1,2]`
and `a[a < 3] = [0,1,2]` for `a = [0,1,2,3,4]`. -/
theorem mask_selects_true_positions :
    (∀ (vs : List Int) (m : List Bool),
      maskSelect vs m = (vs.zip m).filterMap (fun p => if p.2 then some p.1 else none)) ∧
    (let r := runIndex [[0, 1, 2, 3]] ⟨0, 0, 1, 4⟩ (.mask [false, true, true, false]);
     arrVals r.1 r.2 = [1, 2]) ∧
    (let H : Heap := [[0, 1, 2, 3, 4]]; let a : ArrHeader := ⟨0, 0, 1, 5⟩;
     let r := runIndex H a (.mask (scalarLt (arrVals H a) 3));
     arrVals r.1 r.2 = [0, 1, 2]) :=
  ⟨maskSelect_eq_filterMap, rfl, rfl⟩

/-- C10: the mask `(a % 2) == 1` on `a = [0,1,2,3]` evaluates to
`[false,true,false,true]`, indexing `a` with it returns `[1,3]`, and the
one-step form `a[(a % 2) == 1]` equals the two-step form of first computing
the mask and then indexing with it. -/
theorem mask_from_comparison :
    oddMask = [false, true, false, true] ∧
    (let r := runIndex oddHeap oddA (.mask oddMask);
     arrVals r.1 r.2 = [1, 3]) ∧
    index oddHeap oddA (.mask (scalarEq (scalarMod (arrVals oddHeap oddA) 2) 1)) =
      index oddHeap oddA (.mask oddMask) :=
  ⟨rfl, rfl, rfl⟩

/-- Modelled from the spec: the grid-search driver enumerates the cartesian
product of the parameter grid's value lists and issues one fit/score
evaluation per combination per cross-validation fold. -/
def gridCombos (lrs : List ℚ) (ns : List Nat) : List (ℚ × Nat) :=
  lrs.flatMap fun lr => ns.map fun n => (lr, n)

/-- The notebook's `learning_rate` grid values (0.01, 0.1, 1). -/
def gridLearningRates : List ℚ := [1/100, 1/10, 1]

/-- The notebook's `max_leaf_nodes` grid values (5, 43, 63). -/
def gridMaxLeafNodes : List Nat := [5, 43, 63]

/-- Fit/score evaluations issued per cross-validation fold. -/
def evalsPerFold : Nat := (gridCombos gridLearningRates gridMaxLeafNodes).length

/-- C7: a grid search over 3 learning-rate values and 3 max-leaf-nodes
values issues exactly 9 evaluations per cross-validation fold, one for each
of the 9 pairwise-distinct parameter combinations. -/
theorem grid_search_nine_evals :
    evalsPerFold = 9 ∧ (gridCombos gridLearningRates gridMaxLeafNodes).Nodup := by
  refine ⟨rfl, ?_⟩
  norm_num [gridCombos, gridLearningRates, gridMaxLeafNodes,
    List.nodup_cons, Prod.ext_iff]

theorem getD_set_of_ne {α : Type} (l : List α) (p q : Nat) (v d : α) (h : p ≠ q) :
    (l.set p v).getD q d = l.getD q d := by
  simp [List.getD_eq_getD_get?, List.get?_eq_getElem?, List.getElem?_set_ne h]

theorem getD_set_self_of_lt {α : Type} (l : List α) (p : Nat) (v d : α)
    (h : p < l.length) : (l.set p v).getD p d = v := by
  simp [List.getD_eq_getD_get?, List.get?_eq_getElem?, List.getElem?_set_self h]

theorem readStore_writeElem_ne (H : Heap) (h : ArrHeader) (i : Nat) (v : Int)
    (sid : Nat) (hne : h.sid ≠ sid) :
    readStore (writeElem H h i v) sid = readStore H sid := by
  simp only [readStore, writeElem]
  exact getD_set_of_ne _ _ _ _ _ hne

theorem readStore_append_lt (H L : Heap) (sid : Nat) (hlt : sid < H.length) :
    readStore (H ++ L) sid = readStore H sid := by
  simp only [readStore]
  exact List.getD_append _ _ _ _ hlt

theorem arrVals_congr_store {H1 H2 : Heap} (a : ArrHeader)
    (h : readStore H1 a.sid = readStore H2 a.sid) : arrVals H1 a = arrVals H2 a := by
  simp [arrVals, readElem, h]

theorem readElem_writeElem_self (H : Heap) (h : ArrHeader) (i : Nat) (v : Int)
    (hsid : h.sid < H.length)
    (hpos : h.offset + i * h.stride < (readStore H h.sid).length) :
    readElem (writeElem H h i v) h i = v := by
  simp only [readElem, writeElem, readStore] at *
  rw [getD_set_self_of_lt _ _ _ _ hsid]
  rw [getD_set_self_of_lt _ _ _ _ (by simpa using hpos)]

/-- C2: for every heap with a valid array header `a` and every boolean mask
`m`, if mask indexing succeeds then mutating any element of the result
leaves every element of `a` unchanged: the result is an independent copy. -/
theorem mask_copy_independence (H : Heap) (a : ArrHeader) (m : List Bool)
    (H2 : Heap) (b : ArrHeader) (ha : a.sid < H.length)
    (hok : index H a (.mask m) = .ok (H2, b)) (i : Nat) (v : Int) :
    arrVals (writeElem H2 b i v) a = arrVals H a := by
  by_cases hm : m.length = a.len
  · simp only [index, if_pos hm, Except.ok.injEq, Prod.mk.injEq] at hok
    obtain ⟨hH2, hb⟩ := hok
    have hbsid : b.sid = H.length := by rw [← hb]
    apply arrVals_congr_store
    rw [readStore_writeElem_ne _ _ _ _ _ (by omega)]
    rw [← hH2, readStore_append_lt _ _ _ ha]
  · simp [index, hm] at hok

/-- Witness for C2: writing through the copy `b = a[a < 3]` from the quiz
leaves `a`'s values unchanged. -/
theorem mask_copy_independence_witness :
    arrVals (writeElem [[0, 1, 2, 3, 4], [0, 1, 2]] ⟨1, 0, 1, 3⟩ 0 7) ⟨0, 0, 1, 5⟩ =
      arrVals [[0, 1, 2, 3, 4]] ⟨0, 0, 1, 5⟩ :=
  mask_copy_independence [[0, 1, 2, 3, 4]] ⟨0, 0, 1, 5⟩
    [true, true, true, false, false] [[0, 1, 2, 3, 4], [0, 1, 2]] ⟨1, 0, 1, 3⟩
    (by decide) rfl 0 7

/-- C3: slicing produces a view: the heap is unchanged, the result shares
`a`'s backing store, and logical index `i` of the result aliases logical
index `start + i*step` of `a` — writes through either side are the same
heap mutation, reads agree, and a write through one side is visible as `v`
through the other at the corresponding position. -/
theorem slice_view_aliasing (H : Heap) (a : ArrHeader) (st sp k : Nat)
    (H2 : Heap) (b : ArrHeader)
    (hok : index H a (.slice st sp k) = .ok (H2, b)) :
    H2 = H ∧ b.sid = a.sid ∧
    (∀ i v, writeElem H b i v = writeElem H a (st + i * k) v) ∧
    (∀ i, readElem H b i = readElem H a (st + i * k)) ∧
    (∀ i v, a.sid < H.length →
      a.offset + (st + i * k) * a.stride < (readStore H a.sid).length →
      readElem (writeElem H b i v) a (st + i * k) = v ∧
      readElem (writeElem H a (st + i * k) v) b i = v) := by
  simp only [index, Except.ok.injEq, Prod.mk.injEq] at hok
  obtain ⟨hH, hb⟩ := hok
  subst hH
  subst hb
  have hpos : ∀ i : Nat,
      a.offset + st * a.stride + i * (a.stride * k) =
        a.offset + (st + i * k) * a.stride := by
    intro i; ring
  have hw : ∀ (i : Nat) (v : Int),
      writeElem H ⟨a.sid, a.offset + st * a.stride, a.stride * k,
        sliceLen st sp k a.len⟩ i v = writeElem H a (st + i * k) v := by
    intro i v
    simp only [writeElem, hpos i]
  have hr : ∀ (G : Heap) (i : Nat),
      readElem G ⟨a.sid, a.offset + st * a.stride, a.stride * k,
        sliceLen st sp k a.len⟩ i = readElem G a (st + i * k) := by
    intro G i
    simp only [readElem, hpos i]
  refine ⟨rfl, rfl, hw, hr H, ?_⟩
  intro i v hsid hlt
  constructor
  · rw [hw i v]
    exact readElem_writeElem_self _ _ _ _ hsid hlt
  · rw [hr _ i]
    exact readElem_writeElem_self _ _ _ _ hsid hlt

/-- Witness for C3: the slice `a[1::2]` of `a = [0,1,2,3,4]` aliases `a`:
writing 9 at logical index 1 of the slice is the same mutation as writing 9
at index 3 of `a`. -/
theorem slice_view_aliasing_witness :
    writeElem [[0, 1, 2, 3, 4]] ⟨0, 1, 2, 2⟩ 1 9 =
      writeElem [[0, 1, 2, 3, 4]] ⟨0, 0, 1, 5⟩ (1 + 1 * 2) 9 :=
  (slice_view_aliasing [[0, 1, 2, 3, 4]] ⟨0, 0, 1, 5⟩ 1 5 2
    [[0, 1, 2, 3, 4]] ⟨0, 1, 2, 2⟩ rfl).2.2.1 1 9

/-- C6: whenever `index` succeeds, a slice expression yields a view — the
result shares the source's backing store and the heap is unchanged — while
a boolean mask or an integer-index sequence yields a copy — the result's
backing store is freshly allocated (the new heap position), appended to the
heap; there is no other case. -/
theorem index_view_copy_classification (H : Heap) (a : ArrHeader)
    (e : IndexExpr) (H2 : Heap) (b : ArrHeader)
    (hok : index H a e = .ok (H2, b)) :
    (match e with
     | .slice _ _ _ => b.sid = a.sid ∧ H2 = H
     | .mask _ => b.sid = H.length ∧ ∃ s, H2 = H ++ [s]
     | .ints _ => b.sid = H.length ∧ ∃ s, H2 = H ++ [s]) := by
  cases e with
  | slice st sp k =>
    simp only [index, Except.ok.injEq, Prod.mk.injEq] at hok
    obtain ⟨hH, hb⟩ := hok
    exact ⟨by rw [← hb], hH.symm⟩
  | mask m =>
    by_cases hm : m.length = a.len
    · simp only [index, if_pos hm, Except.ok.injEq, Prod.mk.injEq] at hok
      obtain ⟨hH, hb⟩ := hok
      exact ⟨by rw [← hb], ⟨_, hH.symm⟩⟩
    · simp [index, hm] at hok
  | ints js =>
    cases hres : resolveAll a.len js with
    | ok ps =>
      simp only [index, hres, Except.ok.injEq, Prod.mk.injEq] at hok
      obtain ⟨hH, hb⟩ := hok
      exact ⟨by rw [← hb], ⟨_, hH.symm⟩⟩
    | error f => simp [index, hres] at hok

/-- Witness for C6: slicing `[0,1,2]` with `0:3:2` yields a header on the
same backing store with the heap unchanged. -/
theorem index_view_copy_classification_witness :
    (⟨0, 0, 2, 2⟩ : ArrHeader).sid = (⟨0, 0, 1, 3⟩ : ArrHeader).sid ∧
      ([[0, 1, 2]] : Heap) = [[0, 1, 2]] :=
  index_view_copy_classification [[0, 1, 2]] ⟨0, 0, 1, 3⟩ (.slice 0 3 2)
    [[0, 1, 2]] ⟨0, 0, 2, 2⟩ rfl

/-- C8: an integer index outside the array's bounds (below `-len` or at
least `len`) makes `index` signal an index-out-of-bounds fault, returned
directly to the caller with no clamping. -/
theorem int_index_out_of_bounds (H : Heap) (a : ArrHeader) (j : Int)
    (h : j < -(a.len : Int) ∨ (a.len : Int) ≤ j) :
    index H a (.ints [j]) = .error .indexOutOfBounds := by
  have h1 : ¬(0 ≤ j ∧ j < (a.len : Int)) := by omega
  have h2 : ¬(-(a.len : Int) ≤ j ∧ j < 0) := by omega
  simp [index, resolveAll, resolveIdx, h1, h2]

/-- Witness for C8: index 5 on an array of length 3 faults. -/
theorem int_index_out_of_bounds_witness :
    index [[0, 1, 2]] ⟨0, 0, 1, 3⟩ (.ints [5]) = .error .indexOutOfBounds :=
  int_index_out_of_bounds [[0, 1, 2]] ⟨0, 0, 1, 3⟩ 5 (by decide)

/-- C9: `index` is deterministic — equal heaps, headers and index
expressions always give equal results (values and faults alike), with no
ambient state. -/
theorem index_deterministic (H1 H2 : Heap) (a1 a2 : ArrHeader)
    (e1 e2 : IndexExpr) (hH : H1 = H2) (ha : a1 = a2) (he : e1 = e2) :
    index H1 a1 e1 = index H2 a2 e2 := by
  subst hH; subst ha; subst he; rfl

/-- Witness for C9: two evaluations of the same mask indexing agree. -/
theorem index_deterministic_witness :
    index [[0, 1]] ⟨0, 0, 1, 2⟩ (.mask [true, false]) =
      index [[0, 1]] ⟨0, 0, 1, 2⟩ (.mask [true, false]) :=
  index_deterministic _ _ _ _ _ _ rfl rfl rfl
